import Mathlib

/-!
# tt — a terminal typing-speed test (`main.go`)

Shallow embedding of the `model.Update` state machine and of the scoring
computation it runs on `timer.TimeoutMsg`, together with the index lookup
that `model.View` performs while a test is running.

Conventions of the embedding

* A Go `string` is a list of Unicode code points (`List Char`); byte-level
  operations of the source (`len(s)`, `s[j]`) go through the UTF-8 encoding
  `bytes`.
* A Go `float64` is a value of `Float64`: NaN, a signed infinity, or a finite
  binary64 number given by its sign, integer significand and exponent.
  Conversion, division and multiplication round to nearest, ties to even, as
  IEEE 754 binary64 arithmetic does.
* Components of the bubbles / bubbletea libraries (`textinput`, `cursor`,
  `timer`, `key`) are not part of `main.go`; the fragments of their behaviour
  that `Update` relies on are modelled in the section "Library components".
-/

namespace TT

/-! ## Go strings -/

/-- UTF-8 encoding of one code point, as byte values. -/
def utf8Bytes (c : Char) : List Nat :=
  let n := c.toNat
  if n < 0x80 then [n]
  else if n < 0x800 then [0xC0 + n / 0x40, 0x80 + n % 0x40]
  else if n < 0x10000 then [0xE0 + n / 0x1000, 0x80 + n / 0x40 % 0x40, 0x80 + n % 0x40]
  else [0xF0 + n / 0x40000, 0x80 + n / 0x1000 % 0x40, 0x80 + n / 0x40 % 0x40, 0x80 + n % 0x40]

/-- The bytes of a Go string holding the given code points. -/
def bytes : List Char → List Nat
  | [] => []
  | c :: cs => utf8Bytes c ++ bytes cs

/-- Go `unicode.IsSpace`: the white-space code points. -/
def isSpace (c : Char) : Bool :=
  let n := c.toNat
  (0x09 ≤ n && n ≤ 0x0D) || n == 0x20 || n == 0x85 || n == 0xA0 || n == 0x1680 ||
  (0x2000 ≤ n && n ≤ 0x200A) || n == 0x2028 || n == 0x2029 || n == 0x202F ||
  n == 0x205F || n == 0x3000

/-- Scanning loop of Go `strings.Fields`: `cur` holds the code points of the
word being read, most recent first. -/
def fieldsGo : List Char → List Char → List (List Char)
  | cur, [] => if cur.isEmpty then [] else [cur.reverse]
  | cur, c :: cs =>
    if isSpace c then
      if cur.isEmpty then fieldsGo [] cs else cur.reverse :: fieldsGo [] cs
    else fieldsGo (c :: cur) cs

/-- Go `strings.Fields`: the maximal runs of non-white-space code points. -/
def Fields (s : List Char) : List (List Char) := fieldsGo [] s

/-! ## Go float64 -/

/-- A `float64` value: NaN, a signed infinity, or the finite number
`(-1)^neg * mant * 2^exp`.  The operations below produce the binary64 normal
form: `2^52 ≤ mant < 2^53` with `-1074 ≤ exp ≤ 971`, or `mant < 2^52` with
`exp = -1074` (subnormal numbers and the two zeros). -/
inductive Float64 where
  | NaN : Float64
  | Inf (neg : Bool) : Float64
  | fin (neg : Bool) (mant : Nat) (exp : Int) : Float64
  deriving DecidableEq

namespace Float64

/-- The exponent of the subnormal numbers, in units of the last place. -/
def minExp : Int := -1074

/-- The largest exponent of a finite number, in units of the last place. -/
def maxExp : Int := 971

/-- The integer part of the binary logarithm, found by halving; the first
argument bounds the number of steps. -/
def log2Steps : Nat → Nat → Nat
  | 0, _ => 0
  | steps + 1, n => if 2 ≤ n then log2Steps steps (n / 2) + 1 else 0

/-- The integer part of the binary logarithm of `n > 0`, for `n < 2^4096`: the
significands, their products and the 64-bit integers all are. -/
def log2 (n : Nat) : Nat := log2Steps 4096 n

/-- The integer part of the binary logarithm of `a / b`, for `a, b > 0`. -/
def floorLog2 (a b : Nat) : Int :=
  let s : Int := (log2 a : Int) - (log2 b : Int)
  let above : Bool := if 0 ≤ s then b * 2 ^ s.toNat ≤ a else b ≤ a * 2 ^ (-s).toNat
  if above then s else s - 1

/-- The binary64 number nearest to `(-1)^neg * (a / b) * 2^e` for `b > 0`,
ties to even; an infinity when the rounded value exceeds the largest finite
number. -/
def round (neg : Bool) (a b : Nat) (e : Int) : Float64 :=
  if a = 0 then fin neg 0 minExp
  else
    let E := max (floorLog2 a b + e - 52) minExp
    let N := a * 2 ^ (e - E).toNat
    let D := b * 2 ^ (E - e).toNat
    let q := N / D
    let r := N % D
    let M := if D < 2 * r ∨ (2 * r = D ∧ q % 2 = 1) then q + 1 else q
    let E := if M = 2 ^ 53 then E + 1 else E
    let M := if M = 2 ^ 53 then 2 ^ 52 else M
    if maxExp < E then Inf neg else fin neg M E

/-- Conversion `float64(n)` of a non-negative `int`, and the value of a
non-negative integer constant used as a `float64`. -/
def ofNat (n : Nat) : Float64 := round false n 1 0

/-- Division `x / y` on `float64`. -/
def div : Float64 → Float64 → Float64
  | NaN, _ => NaN
  | _, NaN => NaN
  | Inf _, Inf _ => NaN
  | Inf s, fin t _ _ => Inf (s != t)
  | fin s _ _, Inf t => fin (s != t) 0 minExp
  | fin s a ea, fin t b eb =>
    if b = 0 then (if a = 0 then NaN else Inf (s != t)) else round (s != t) a b (ea - eb)

/-- Multiplication `x * y` on `float64`. -/
def mul : Float64 → Float64 → Float64
  | NaN, _ => NaN
  | _, NaN => NaN
  | Inf s, Inf t => Inf (s != t)
  | Inf s, fin t b _ => if b = 0 then NaN else Inf (s != t)
  | fin s a _, Inf t => if a = 0 then NaN else Inf (s != t)
  | fin s a ea, fin t b eb => round (s != t) (a * b) 1 (ea + eb)

/-- The rational number a finite `float64` stands for. -/
def toRat : Float64 → Option ℚ
  | fin neg mant exp => some ((if neg then -1 else 1) * (mant : ℚ) * (2 : ℚ) ^ exp)
  | _ => none

/-- The `float64` is the non-negative integer `k`, exactly. -/
def isNat (x : Float64) (k : Nat) : Bool :=
  match x with
  | fin false mant exp =>
    if mant = 0 then decide (k = 0)
    else decide (exp ≤ 0 ∧ mant = k * 2 ^ (-exp).toNat)
  | _ => false

/-- The `float64` is a non-negative number within `2^(-k)` of `p / q`. -/
def closeTo (x : Float64) (p q k : Nat) : Bool :=
  match x with
  | fin false mant exp =>
    if mant = 0 then decide (p * 2 ^ k ≤ q)
    else decide (exp ≤ 0 ∧
      ((mant : Int) * q - (p : Int) * 2 ^ (-exp).toNat).natAbs * 2 ^ k ≤ q * 2 ^ (-exp).toNat)
  | _ => false

end Float64

/-! ## Constants of `main.go` -/

/-- The constant `timeInSeconds`. -/
def timeInSeconds : Nat := 5

/-- The constant `timeout = time.Second * timeInSeconds`, in nanoseconds. -/
def timeout : Int := 1000000000 * timeInSeconds

/-- The constant `time.Millisecond`, in nanoseconds. -/
def millisecond : Int := 1000000

/-- The variable `words`, the reference phrase. -/
def words : List Char := "hi only few people can read this".toList

/-! ## Scoring loops of the `timer.TimeoutMsg` case -/

/-- Inner loop `for j := 0; j < len(typedWord); j++`: the second argument is
`typedWord[j:]`, the last two are `correctChars` and `totalChars`. -/
def innerLoop (refWord : List Nat) : List Nat → Nat → Nat → Nat → Nat × Nat
  | [], _, correctChars, totalChars => (correctChars, totalChars)
  | b :: rest, j, correctChars, totalChars =>
    let correctChars :=
      if j < refWord.length ∧ some b = refWord[j]? then correctChars + 1 else correctChars
    let totalChars := if j < refWord.length then totalChars + 1 else totalChars
    innerLoop refWord rest (j + 1) correctChars totalChars

/-- The three counters of the scoring loop. -/
structure Counts where
  correctChars : Nat
  totalChars : Nat
  correctWords : Nat
  deriving DecidableEq

/-- Outer loop `for i := 0; i < len(typedWords); i++`: the second argument is
`typedWords[i:]`. -/
def outerLoop (expectedWords : List (List Char)) : List (List Char) → Nat → Counts → Counts
  | [], _, acc => acc
  | typedWord :: rest, i, acc =>
    match expectedWords[i]? with
    | some refWord =>
      let r := innerLoop (bytes refWord) (bytes typedWord) 0 acc.correctChars acc.totalChars
      let correctWords :=
        if bytes typedWord = bytes refWord then acc.correctWords + 1 else acc.correctWords
      outerLoop expectedWords rest (i + 1) ⟨r.1, r.2, correctWords⟩
    | none => outerLoop expectedWords rest (i + 1) acc

/-- The counters after the scoring loop, for an input buffer value. -/
def score (value : List Char) : Counts :=
  outerLoop (Fields words) (Fields value) 0 ⟨0, 0, 0⟩

/-- The assignment `m.wpm = float64(correctWords) / (timeInSeconds / 60.0)`;
the constant expression `timeInSeconds / 60.0` is the exact constant 5/60,
rounded once when it becomes a `float64`. -/
def wpmOf (c : Counts) : Float64 :=
  Float64.div (Float64.ofNat c.correctWords) (Float64.round false timeInSeconds 60 0)

/-- The assignment
`m.accuracy = (float64(correctChars) / float64(totalChars)) * 100`: a rounded
division followed by a rounded multiplication. -/
def accuracyOf (c : Counts) : Float64 :=
  Float64.mul (Float64.div (Float64.ofNat c.correctChars) (Float64.ofNat c.totalChars))
    (Float64.ofNat 100)

/-! ## Library components

The bubbles / bubbletea types used by `main.go`.  Only their state and the
setters that `Update` calls directly are fixed here; the three library
`Update` functions that `model.Update` delegates to are a parameter (`Lib`),
with `bubbles` as the default behaviour of the library components. -/

/-- A bubbles `key.Binding`: its keys and its `disabled` flag. -/
structure Binding where
  keys : List String
  disabled : Bool
  deriving DecidableEq

/-- The constructor `key.NewBinding(key.WithKeys(...))`. -/
def NewBinding (keys : List String) : Binding := { keys := keys, disabled := false }

/-- The method `Binding.Enabled`: not disabled and with at least one key. -/
def Binding.Enabled (b : Binding) : Bool := !b.disabled && !b.keys.isEmpty

/-- The method `Binding.SetEnabled`. -/
def Binding.SetEnabled (b : Binding) (v : Bool) : Binding := { b with disabled := !v }

/-- The function `key.Matches(msg, b)`, on the `String()` of the key message. -/
def Matches (str : String) (b : Binding) : Bool :=
  b.keys.any (fun v => str == v && b.Enabled)

/-- A bubbles `timer.Model`; durations in nanoseconds. -/
structure Timer where
  Timeout : Int
  Interval : Int
  running : Bool
  deriving DecidableEq

/-- The constructor `timer.NewWithInterval`. -/
def NewWithInterval (timeout interval : Int) : Timer :=
  { Timeout := timeout, Interval := interval, running := true }

/-- A bubbles `textinput.Model`: the runes typed, the cursor position, the
focus flag and the character limit (0 for none). -/
structure TextInput where
  value : List Char
  pos : Nat
  focus : Bool
  CharLimit : Nat
  deriving DecidableEq

/-- The constructor `textinput.New()`. -/
def TextInput.New : TextInput := { value := [], pos := 0, focus := false, CharLimit := 0 }

/-- The method `textinput.Model.Focus`. -/
def TextInput.Focus (t : TextInput) : TextInput := { t with focus := true }

/-- The method `textinput.Model.Reset`. -/
def TextInput.Reset (t : TextInput) : TextInput := { t with value := [], pos := 0 }

/-- The method `textinput.Model.Value`. -/
def TextInput.Value (t : TextInput) : List Char := t.value

/-- A bubbles `cursor.Model`: the focus flag and the blink phase. -/
structure Cursor where
  focus : Bool
  Blink : Bool
  deriving DecidableEq

/-- The constructor `cursor.New()`. -/
def Cursor.New : Cursor := { focus := false, Blink := true }

/-- The method `cursor.Model.Focus`. -/
def Cursor.Focus (c : Cursor) : Cursor := { c with focus := true, Blink := false }

/-- The method `cursor.Model.Blur`. -/
def Cursor.Blur (c : Cursor) : Cursor := { c with focus := false, Blink := true }

/-- The messages `model.Update` distinguishes.  A key message is given by its
`String()` and its `Runes`; `other` stands for every message type without a
case of its own in `model.Update`. -/
inductive Msg where
  | WindowSizeMsg (Width Height : Int) : Msg
  | TickMsg (ID : Nat) : Msg
  | KeyMsg (str : String) (Runes : List Char) : Msg
  | TimeoutMsg (ID : Nat) : Msg
  | other (payload : Nat) : Msg
  deriving DecidableEq

/-- The library `Update` functions `model.Update` delegates to. -/
structure Lib where
  timerUpdate : Timer → Msg → Timer
  textInputUpdate : TextInput → Msg → TextInput
  cursorUpdate : Cursor → Msg → Cursor

/-- Go `unicode.IsControl`. -/
def isControl (c : Char) : Bool :=
  let n := c.toNat
  n < 0x20 || (0x7F ≤ n && n < 0xA0)

/-- The sanitizer of `textinput`: tabs and newlines become a space, other
control characters are dropped. -/
def sanitize : List Char → List Char
  | [] => []
  | c :: cs =>
    if c = '\t' ∨ c = '\n' ∨ c = '\r' then ' ' :: sanitize cs
    else if isControl c then sanitize cs
    else c :: sanitize cs

/-- The method `insertRunesFromUserInput` of `textinput`. -/
def TextInput.insertRunesFromUserInput (t : TextInput) (v : List Char) : TextInput :=
  let paste := sanitize v
  let paste := if 0 < t.CharLimit then paste.take (t.CharLimit - t.value.length) else paste
  { t with value := t.value.take t.pos ++ paste ++ t.value.drop t.pos,
           pos := t.pos + paste.length }

/-- Behaviour of `textinput.Model.Update` on key messages with the default key
map: character-wise editing and insertion of the typed runes.  The word-wise
bindings, paste and suggestions are left out (the input is unchanged on them). -/
def textinputUpdate (t : TextInput) : Msg → TextInput
  | .KeyMsg str Runes =>
    if !t.focus then t
    else if str = "backspace" ∨ str = "ctrl+h" then
      if 0 < t.value.length then
        { t with value := t.value.take (t.pos - 1) ++ t.value.drop t.pos, pos := t.pos - 1 }
      else t
    else if str = "left" ∨ str = "ctrl+b" then { t with pos := t.pos - 1 }
    else if str = "right" ∨ str = "ctrl+f" then
      if t.pos < t.value.length then { t with pos := t.pos + 1 } else t
    else if str = "home" ∨ str = "ctrl+a" then { t with pos := 0 }
    else if str = "end" ∨ str = "ctrl+e" then { t with pos := t.value.length }
    else if str = "delete" ∨ str = "ctrl+d" then
      if t.pos < t.value.length then
        { t with value := t.value.take t.pos ++ t.value.drop (t.pos + 1) }
      else t
    else if str = "ctrl+k" then { t with value := t.value.take t.pos }
    else if str = "ctrl+u" then { t with value := t.value.drop t.pos, pos := 0 }
    else if str ∈ ["alt+backspace", "ctrl+w", "alt+delete", "alt+d", "alt+right",
        "ctrl+right", "alt+f", "alt+left", "ctrl+left", "alt+b", "ctrl+v", "down",
        "ctrl+n", "up", "ctrl+p"] then t
    else t.insertRunesFromUserInput Runes
  | _ => t

/-- Behaviour of `timer.Model.Update` on a tick: a running timer that has not
timed out loses one interval. -/
def timerUpdate (t : Timer) : Msg → Timer
  | .TickMsg _ =>
    if t.running ∧ 0 < t.Timeout then { t with Timeout := t.Timeout - t.Interval } else t
  | _ => t

/-- Behaviour of `cursor.Model.Update`: key messages leave the cursor as it is. -/
def cursorUpdate (c : Cursor) : Msg → Cursor
  | _ => c

/-- The library components with their default behaviour. -/
def bubbles : Lib :=
  { timerUpdate := timerUpdate, textInputUpdate := textinputUpdate,
    cursorUpdate := cursorUpdate }

/-! ## The model of `main.go` -/

/-- The struct `keymap`. -/
structure keymap where
  start : Binding
  reset : Binding
  quit : Binding
  deriving DecidableEq

/-- The struct `model`.  The `help` field, which `Update` never touches, is
left out. -/
structure model where
  timer : Timer
  textInput : TextInput
  cursor : Cursor
  width : Int
  height : Int
  keymap : keymap
  wpm : Float64
  accuracy : Float64
  started : Bool
  ended : Bool
  deriving DecidableEq

/-- The model built in `main`, with `m.keymap.reset.SetEnabled(false)` applied. -/
def initialModel : model :=
  { timer := NewWithInterval timeout millisecond
    textInput := TextInput.New.Focus
    cursor := Cursor.New
    width := 0
    height := 0
    keymap :=
      { start := NewBinding ["."]
        reset := (NewBinding ["tab"]).SetEnabled false
        quit := NewBinding ["esc", "ctrl+c"] }
    wpm := Float64.ofNat 0
    accuracy := Float64.ofNat 0
    started := false
    ended := false }

/-- The tail of `Update` after the `switch`: the message is handed to the text
input and to the cursor. -/
def fallThrough (L : Lib) (m : model) (msg : Msg) : model :=
  { m with textInput := L.textInputUpdate m.textInput msg,
           cursor := L.cursorUpdate m.cursor msg }

/-- The method `model.Update`; the returned model (the command is not part of
the embedding). -/
def Update (L : Lib) (m : model) (msg : Msg) : model :=
  match msg with
  | .WindowSizeMsg Width Height =>
    if Width = 0 ∧ Height = 0 then m
    else { m with width := Width, height := Height }
  | .TickMsg _ => { m with timer := L.timerUpdate m.timer msg }
  | .KeyMsg str _ =>
    if Matches str m.keymap.quit then m
    else if Matches str m.keymap.start then
      { m with timer := NewWithInterval timeout millisecond,
               keymap := { m.keymap with start := m.keymap.start.SetEnabled false,
                                         reset := m.keymap.reset.SetEnabled true },
               textInput := m.textInput.Reset,
               cursor := m.cursor.Focus,
               started := true }
    else if Matches str m.keymap.reset then
      { m with timer := NewWithInterval timeout millisecond,
               keymap := { m.keymap with start := m.keymap.start.SetEnabled true,
                                         reset := m.keymap.reset.SetEnabled false },
               textInput := m.textInput.Reset,
               cursor := m.cursor.Blur,
               started := false,
               ended := false }
    else fallThrough L m msg
  | .TimeoutMsg _ =>
    let c := score m.textInput.Value
    { m with wpm := wpmOf c,
             accuracy := accuracyOf c,
             textInput := m.textInput.Reset,
             cursor := m.cursor.Blur,
             started := false,
             ended := true }
  | .other _ => fallThrough L m msg

/-- The models reached by handling a sequence of messages in order. -/
def run (L : Lib) (m : model) : List Msg → model
  | [] => m
  | msg :: rest => run L (Update L m msg) rest

/-- Outcome of `View`: a rendering, or the run-time panic of an index out of
range. -/
inductive ViewResult where
  | panic : ViewResult
  | rendered (cursorChar : Option Nat) : ViewResult
  deriving DecidableEq

/-- The method `model.View`, reduced to the one step that can fail: in the
typing area (`m.started`) the byte `words[len(input)]` is looked up for the
cursor. -/
def View (m : model) : ViewResult :=
  if m.started then
    let input := m.textInput.Value
    match (bytes words)[(bytes input).length]? with
    | some cursorChar => .rendered (some cursorChar)
    | none => .panic
  else .rendered none

/-- One key message per rune of a text, as typed on the keyboard. -/
def typeKeys (text : String) : List Msg :=
  text.toList.map (fun c => Msg.KeyMsg (String.singleton c) [c])

/-- A model whose input buffer holds the given text. -/
def withInput (m : model) (text : String) : model :=
  { m with textInput := { m.textInput with value := text.toList } }

/-! ## The scoring as the specification words it -/

/-- The reference phrase as a sequence of words. -/
def reference : List (List Char) :=
  ["hi", "only", "few", "people", "can", "read", "this"].map String.toList

/-- Number of byte positions `j < min(len(typed), len(ref))` at which the typed
byte equals the reference byte. -/
def matchingBytes (typed ref : List Nat) : Nat :=
  (List.range (min typed.length ref.length)).countP (fun j => typed[j]? == ref[j]?)

/-- The count `correctChars` as worded: over the word positions
`i < min(len(typedWords), len(expected))`, the matching byte positions. -/
def specCorrectChars (expected typedWords : List (List Char)) : Nat :=
  ((List.range (min typedWords.length expected.length)).map
    (fun i => matchingBytes (bytes (typedWords.getD i [])) (bytes (expected.getD i [])))).sum

/-- The count `totalChars` as worded: over the word positions
`i < min(len(typedWords), len(expected))`, every byte position of the
reference word. -/
def specTotalChars (expected typedWords : List (List Char)) : Nat :=
  ((List.range (min typedWords.length expected.length)).map
    (fun i => (bytes (expected.getD i [])).length)).sum

/-- The count `totalChars` over the overlap: over the word positions
`i < min(len(typedWords), len(expected))`, the byte positions
`j < min(len(typedWords[i]), len(expected[i]))`. -/
def overlapTotalChars (expected typedWords : List (List Char)) : Nat :=
  ((List.range (min typedWords.length expected.length)).map
    (fun i => min (bytes (typedWords.getD i [])).length (bytes (expected.getD i [])).length)).sum

/-- The count `correctWords` as worded: the word positions
`i < min(len(typedWords), len(expected))` at which the typed word is the
reference word. -/
def specCorrectWords (expected typedWords : List (List Char)) : Nat :=
  (List.range (min typedWords.length expected.length)).countP
    (fun i => typedWords.getD i [] == expected.getD i [])

/-! ## Reachability -/

/-- Every `timer.TimeoutMsg` of the sequence arrives while a test is running
(`started`), when the messages are handled in order from `m`. -/
def timeoutsWhileStarted (L : Lib) (m : model) : List Msg → Bool
  | [] => true
  | msg :: rest =>
    (match msg with
      | .TimeoutMsg _ => m.started
      | _ => true) && timeoutsWhileStarted L (Update L m msg) rest

/-- The key bindings keep the keys given in `main`, and `quit` stays enabled. -/
def keysOfMain (m : model) : Prop :=
  m.keymap.start.keys = ["."] ∧ m.keymap.reset.keys = ["tab"] ∧
  m.keymap.quit.keys = ["esc", "ctrl+c"] ∧ m.keymap.quit.disabled = false

/-- Invariant of every message sequence: exactly one of `start` and `reset` is
enabled, `reset` while a test is running and `start` in the idle state. -/
def bindingsInv (m : model) : Prop :=
  keysOfMain m ∧
  m.keymap.start.disabled = !m.keymap.reset.disabled ∧
  (m.started = true → m.keymap.reset.disabled = false) ∧
  (m.started = false → m.ended = false → m.keymap.start.disabled = false)

/-- Invariant of the message sequences whose timeouts arrive while a test is
running: `start` is enabled exactly in the idle state. -/
def lifecycleInv (m : model) : Prop :=
  bindingsInv m ∧
  (m.keymap.start.disabled = false ↔ (m.started = false ∧ m.ended = false)) ∧
  (m.ended = true → m.started = false)

/-! ## Lemmas on the scanning and scoring loops -/

theorem expectedWords_eq : Fields words = reference := by decide

theorem range_map_sum_succ (f : Nat → Nat) (n : Nat) :
    ((List.range (n + 1)).map f).sum = f 0 + ((List.range n).map (fun k => f (k + 1))).sum := by
  rw [List.range_succ_eq_map, List.map_cons, List.sum_cons, List.map_map]
  rfl

theorem range_countP_succ (p : Nat → Bool) (n : Nat) :
    (List.range (n + 1)).countP p
      = (if p 0 then 1 else 0) + (List.range n).countP (fun k => p (k + 1)) := by
  rw [List.range_succ_eq_map, List.countP_cons, List.countP_map, Nat.add_comm]
  rfl

theorem matchingBytes_nil_left (ref : List Nat) : matchingBytes [] ref = 0 := by
  simp [matchingBytes]

theorem matchingBytes_nil_right (typed : List Nat) : matchingBytes typed [] = 0 := by
  simp [matchingBytes]

theorem matchingBytes_cons (b r : Nat) (typed ref : List Nat) :
    matchingBytes (b :: typed) (r :: ref)
      = (if b = r then 1 else 0) + matchingBytes typed ref := by
  simp only [matchingBytes, List.length_cons, Nat.succ_min_succ, range_countP_succ]
  simp

theorem innerLoop_drop :
    ∀ (rest ref : List Nat) (j cc tc : Nat),
      innerLoop ref rest j cc tc = innerLoop (ref.drop j) rest 0 cc tc := by
  intro rest
  induction rest with
  | nil => intros; rfl
  | cons b rest ih =>
    intro ref j cc tc
    simp only [innerLoop]
    rw [ih ref (j + 1), ih (ref.drop j) (0 + 1)]
    simp [List.drop_drop, Nat.add_comm]

theorem innerLoop_spec :
    ∀ (typed ref : List Nat) (cc tc : Nat),
      innerLoop ref typed 0 cc tc
        = (cc + matchingBytes typed ref, tc + min typed.length ref.length) := by
  intro typed
  induction typed with
  | nil => intro ref cc tc; simp [innerLoop, matchingBytes_nil_left]
  | cons b typed ih =>
    intro ref cc tc
    cases ref with
    | nil =>
      simp only [innerLoop]
      rw [innerLoop_drop, ih]
      simp [matchingBytes_nil_right]
    | cons r ref =>
      simp only [innerLoop]
      rw [innerLoop_drop, ih, matchingBytes_cons]
      by_cases h : b = r <;> simp [h, Nat.succ_min_succ] <;> omega

theorem char_toNat_lt (c : Char) : c.toNat < 0x110000 := by
  have h := c.valid
  simp only [UInt32.isValidChar, Nat.isValidChar] at h
  show c.val.toNat < 0x110000
  omega

theorem utf8Bytes_inj (c d : Char) (l l' : List Nat)
    (h : utf8Bytes c ++ l = utf8Bytes d ++ l') : c = d ∧ l = l' := by
  have hc := char_toNat_lt c
  have hd := char_toNat_lt d
  have key : c.toNat = d.toNat ∧ l = l' := by
    unfold utf8Bytes at h
    simp only at h
    split_ifs at h <;> simp at h <;>
      first
        | (exfalso; omega)
        | (refine ⟨by omega, ?_⟩; simp [h])
  refine ⟨?_, key.2⟩
  apply Char.ext
  apply UInt32.ext
  exact key.1

theorem bytes_inj : ∀ (a b : List Char), bytes a = bytes b → a = b := by
  intro a
  induction a with
  | nil =>
    intro b h
    cases b with
    | nil => rfl
    | cons d b =>
      exfalso
      have : (bytes (d :: b)).length = 0 := by rw [← h]; rfl
      simp only [bytes, List.length_append] at this
      have : (utf8Bytes d).length ≠ 0 := by
        unfold utf8Bytes; simp only; split_ifs <;> simp
      omega
  | cons c a ih =>
    intro b h
    cases b with
    | nil =>
      exfalso
      have : (bytes (c :: a)).length = 0 := by rw [h]; rfl
      simp only [bytes, List.length_append] at this
      have : (utf8Bytes c).length ≠ 0 := by
        unfold utf8Bytes; simp only; split_ifs <;> simp
      omega
    | cons d b =>
      simp only [bytes] at h
      obtain ⟨h1, h2⟩ := utf8Bytes_inj c d _ _ h
      rw [h1, ih b h2]

theorem bytes_eq_iff (a b : List Char) : bytes a = bytes b ↔ a = b :=
  ⟨bytes_inj a b, fun h => by rw [h]⟩

theorem specCorrectChars_nil_left (ew : List (List Char)) : specCorrectChars ew [] = 0 := by
  simp [specCorrectChars]

theorem specCorrectChars_nil_right (tw : List (List Char)) : specCorrectChars [] tw = 0 := by
  simp [specCorrectChars]

theorem specCorrectChars_cons (e t : List Char) (ew tw : List (List Char)) :
    specCorrectChars (e :: ew) (t :: tw)
      = matchingBytes (bytes t) (bytes e) + specCorrectChars ew tw := by
  simp only [specCorrectChars, List.length_cons, Nat.succ_min_succ, range_map_sum_succ]
  simp

theorem overlapTotalChars_nil_left (ew : List (List Char)) : overlapTotalChars ew [] = 0 := by
  simp [overlapTotalChars]

theorem overlapTotalChars_nil_right (tw : List (List Char)) : overlapTotalChars [] tw = 0 := by
  simp [overlapTotalChars]

theorem overlapTotalChars_cons (e t : List Char) (ew tw : List (List Char)) :
    overlapTotalChars (e :: ew) (t :: tw)
      = min (bytes t).length (bytes e).length + overlapTotalChars ew tw := by
  simp only [overlapTotalChars, List.length_cons, Nat.succ_min_succ, range_map_sum_succ]
  simp

theorem specCorrectWords_nil_left (ew : List (List Char)) : specCorrectWords ew [] = 0 := by
  simp [specCorrectWords]

theorem specCorrectWords_nil_right (tw : List (List Char)) : specCorrectWords [] tw = 0 := by
  simp [specCorrectWords]

theorem specCorrectWords_cons (e t : List Char) (ew tw : List (List Char)) :
    specCorrectWords (e :: ew) (t :: tw)
      = (if t = e then 1 else 0) + specCorrectWords ew tw := by
  simp only [specCorrectWords, List.length_cons, Nat.succ_min_succ, range_countP_succ]
  simp

theorem outerLoop_drop :
    ∀ (rest ew : List (List Char)) (i : Nat) (acc : Counts),
      outerLoop ew rest i acc = outerLoop (ew.drop i) rest 0 acc := by
  intro rest
  induction rest with
  | nil => intros; rfl
  | cons t rest ih =>
    intro ew i acc
    have h0 : (ew.drop i)[0]? = ew[i]? := by simp [List.getElem?_drop]
    simp only [outerLoop, h0]
    cases ew[i]? with
    | none =>
      simp only
      rw [ih ew (i + 1), ih (ew.drop i) (0 + 1)]
      simp [List.drop_drop, Nat.add_comm]
    | some r =>
      simp only
      rw [ih ew (i + 1), ih (ew.drop i) (0 + 1)]
      simp [List.drop_drop, Nat.add_comm]

theorem outerLoop_spec :
    ∀ (tw ew : List (List Char)) (acc : Counts),
      outerLoop ew tw 0 acc
        = ⟨acc.correctChars + specCorrectChars ew tw,
           acc.totalChars + overlapTotalChars ew tw,
           acc.correctWords + specCorrectWords ew tw⟩ := by
  intro tw
  induction tw with
  | nil =>
    intro ew acc
    simp [outerLoop, specCorrectChars_nil_left, overlapTotalChars_nil_left,
      specCorrectWords_nil_left]
  | cons t tw ih =>
    intro ew acc
    cases ew with
    | nil =>
      simp only [outerLoop, List.getElem?_nil]
      rw [outerLoop_drop, ih]
      simp [specCorrectChars_nil_right, overlapTotalChars_nil_right,
        specCorrectWords_nil_right]
    | cons e ew =>
      simp only [outerLoop, List.getElem?_cons_zero]
      rw [outerLoop_drop, ih, innerLoop_spec, specCorrectChars_cons, overlapTotalChars_cons,
        specCorrectWords_cons]
      simp only [bytes_eq_iff]
      by_cases h : t = e <;> simp [h] <;> omega

theorem score_spec (value : List Char) :
    score value
      = ⟨specCorrectChars reference (Fields value),
         overlapTotalChars reference (Fields value),
         specCorrectWords reference (Fields value)⟩ := by
  unfold score
  rw [outerLoop_spec, expectedWords_eq]
  simp

theorem fieldsGo_ne_nil :
    ∀ (s cur : List Char) (w : List Char), w ∈ fieldsGo cur s → w ≠ [] := by
  intro s
  induction s with
  | nil =>
    intro cur w hw
    cases cur with
    | nil => simp [fieldsGo] at hw
    | cons c cur =>
      simp [fieldsGo] at hw
      rw [hw]; simp
  | cons c s ih =>
    intro cur w hw
    simp only [fieldsGo] at hw
    split_ifs at hw with h1 h2
    · exact ih _ w hw
    · rcases List.mem_cons.1 hw with h | h
      · rw [h]
        cases cur with
        | nil => simp at h2
        | cons d cur => simp
      · exact ih _ w h
    · exact ih _ w hw

theorem bytes_length_pos (w : List Char) (h : w ≠ []) : 0 < (bytes w).length := by
  cases w with
  | nil => exact absurd rfl h
  | cons c w =>
    have : (utf8Bytes c).length ≠ 0 := by
      unfold utf8Bytes; simp only; split_ifs <;> simp
    simp only [bytes, List.length_append]
    omega

theorem overlapTotalChars_pos (value : List Char) (h : Fields value ≠ []) :
    0 < overlapTotalChars reference (Fields value) := by
  cases hf : Fields value with
  | nil => exact absurd hf h
  | cons t ts =>
    have ht : t ≠ [] := fieldsGo_ne_nil value [] t (by
      show t ∈ Fields value
      rw [hf]; exact List.mem_cons_self _ _)
    have hpos := bytes_length_pos t ht
    have href : reference = "hi".toList :: reference.tail := by decide
    rw [href, overlapTotalChars_cons]
    have h2 : (bytes "hi".toList).length = 2 := by decide
    rw [h2]
    omega

theorem run_append (L : Lib) :
    ∀ (l₁ l₂ : List Msg) (m : model), run L m (l₁ ++ l₂) = run L (run L m l₁) l₂ := by
  intro l₁
  induction l₁ with
  | nil => intros; rfl
  | cons x l₁ ih => intro l₂ m; exact ih l₂ (Update L m x)

theorem run_snoc (L : Lib) (m : model) (x : Msg) (l : List Msg) (y : Msg) :
    run L m (x :: l ++ [y]) = Update L (run L m (x :: l)) y :=
  run_append L (x :: l) [y] m

theorem withInput_value (m : model) (text : String) :
    (withInput m text).textInput.Value = text.toList := rfl

theorem Update_timeout_wpm (L : Lib) (m : model) (ID : Nat) :
    (Update L m (.TimeoutMsg ID)).wpm = wpmOf (score m.textInput.Value) := rfl

theorem Update_timeout_accuracy (L : Lib) (m : model) (ID : Nat) :
    (Update L m (.TimeoutMsg ID)).accuracy = accuracyOf (score m.textInput.Value) := rfl

theorem outerLoop_append (ew : List (List Char)) :
    ∀ (a b : List (List Char)) (i : Nat) (acc : Counts),
      outerLoop ew (a ++ b) i acc = outerLoop ew b (i + a.length) (outerLoop ew a i acc) := by
  intro a
  induction a with
  | nil => intro b i acc; rfl
  | cons t a ih =>
    intro b i acc
    simp only [List.cons_append, outerLoop, List.length_cons, List.append_eq]
    cases ew[i]? with
    | none => simp only; rw [ih]; congr 1; omega
    | some r => simp only; rw [ih]; congr 1; omega

theorem outerLoop_beyond (ew : List (List Char)) :
    ∀ (b : List (List Char)) (i : Nat) (acc : Counts),
      ew.length ≤ i → outerLoop ew b i acc = acc := by
  intro b
  induction b with
  | nil => intros; rfl
  | cons t b ih =>
    intro i acc h
    have hi : ew[i]? = none := List.getElem?_eq_none h
    simp only [outerLoop, hi]
    exact ih (i + 1) acc (by omega)

theorem score_extra (v v' : List Char) (e : List (List Char))
    (hlen : 7 ≤ (Fields v).length) (h : Fields v' = Fields v ++ e) : score v' = score v := by
  unfold score
  rw [h, outerLoop_append]
  apply outerLoop_beyond
  have : (Fields words).length = 7 := by decide
  omega

/-! ## Lemmas on the float64 results -/

theorem toRat_of_isNat (x : Float64) (k : Nat) (h : Float64.isNat x k = true) :
    Float64.toRat x = some (k : ℚ) := by
  cases x with
  | NaN => simp [Float64.isNat] at h
  | Inf neg => simp [Float64.isNat] at h
  | fin neg mant exp =>
    cases neg with
    | true => simp [Float64.isNat] at h
    | false =>
      simp only [Float64.isNat] at h
      simp only [Float64.toRat, Bool.false_eq_true, if_false, one_mul, Option.some.injEq]
      split_ifs at h with h0
      · have hk : k = 0 := by simpa using h
        rw [h0, hk]; simp
      · simp only [decide_eq_true_eq] at h
        obtain ⟨he, hm⟩ := h
        obtain ⟨n, hn⟩ : ∃ n : Nat, exp = -(n : Int) := ⟨(-exp).toNat, by omega⟩
        subst hn
        have hn' : (- -(n : Int)).toNat = n := by simp
        rw [hn'] at hm
        have h2 : ((2 : ℚ) ^ n) ≠ 0 := pow_ne_zero _ (by norm_num)
        rw [hm, zpow_neg, zpow_natCast]
        push_cast
        exact mul_inv_cancel_right₀ h2 _

theorem closeTo_bound (x : Float64) (p q k : Nat) (hq : 0 < q)
    (h : Float64.closeTo x p q k = true) :
    ∃ r : ℚ, Float64.toRat x = some r ∧ |r - (p : ℚ) / (q : ℚ)| ≤ 1 / 2 ^ k := by
  have hq' : (0 : ℚ) < (q : ℚ) := by exact_mod_cast hq
  have hk : (0 : ℚ) < (2 : ℚ) ^ k := pow_pos (by norm_num) _
  cases x with
  | NaN => simp [Float64.closeTo] at h
  | Inf neg => simp [Float64.closeTo] at h
  | fin neg mant exp =>
    cases neg with
    | true => simp [Float64.closeTo] at h
    | false =>
      simp only [Float64.closeTo] at h
      refine ⟨_, rfl, ?_⟩
      simp only [Bool.false_eq_true, if_false, one_mul]
      split_ifs at h with h0
      · have hp : p * 2 ^ k ≤ q := by simpa using h
        have hp' : (p : ℚ) * 2 ^ k ≤ (q : ℚ) := by exact_mod_cast hp
        rw [h0]
        simp only [Nat.cast_zero, zero_mul, zero_sub, abs_neg]
        rw [abs_of_nonneg (by positivity), div_le_div_iff₀ hq' hk]
        linarith
      · simp only [decide_eq_true_eq] at h
        obtain ⟨he, hm⟩ := h
        obtain ⟨n, hn⟩ : ∃ n : Nat, exp = -(n : Int) := ⟨(-exp).toNat, by omega⟩
        subst hn
        have hn' : (- -(n : Int)).toNat = n := by simp
        rw [hn'] at hm
        have h2 : (0 : ℚ) < (2 : ℚ) ^ n := pow_pos (by norm_num) _
        rw [zpow_neg, zpow_natCast]
        have hcast : (|(mant : ℚ) * q - (p : ℚ) * 2 ^ n|) * 2 ^ k ≤ (q : ℚ) * 2 ^ n := by
          have h3 : ((((mant : Int) * q - (p : Int) * 2 ^ n).natAbs * 2 ^ k : Nat) : ℚ)
              ≤ ((q * 2 ^ n : Nat) : ℚ) := by exact_mod_cast hm
          have h4 : (((mant : Int) * q - (p : Int) * 2 ^ n).natAbs : ℚ)
              = |(mant : ℚ) * q - (p : ℚ) * 2 ^ n| := by
            rw [Nat.cast_natAbs]
            push_cast
            rfl
          push_cast at h3
          rw [h4] at h3
          exact h3
        have heq : (mant : ℚ) * (2 ^ n)⁻¹ - (p : ℚ) / q
            = ((mant : ℚ) * q - (p : ℚ) * 2 ^ n) / ((q : ℚ) * 2 ^ n) := by
          field_simp
          ring
        rw [heq, abs_div, abs_of_pos (mul_pos hq' h2), div_le_div_iff₀ (mul_pos hq' h2) hk]
        linarith

theorem wpm_small : ∀ n, n ≤ 7 →
    Float64.div (Float64.ofNat n) (Float64.round false timeInSeconds 60 0)
      = Float64.ofNat (12 * n) := by
  decide

theorem ofNat_isNat_small : ∀ n, n ≤ 7 →
    Float64.isNat (Float64.ofNat (12 * n)) (12 * n) = true := by
  decide

theorem ofNat_isNat_hundred : Float64.isNat (Float64.ofNat 100) 100 = true := by
  decide

theorem accuracy_close : ∀ t, t ≤ 26 → ∀ c, c ≤ t → 0 < t →
    Float64.closeTo
      (Float64.mul (Float64.div (Float64.ofNat c) (Float64.ofNat t)) (Float64.ofNat 100))
      (100 * c) t 46 = true := by
  set_option maxRecDepth 4000 in decide

theorem matchingBytes_le (typed ref : List Nat) :
    matchingBytes typed ref ≤ min typed.length ref.length := by
  unfold matchingBytes
  exact (List.countP_le_length _).trans (by rw [List.length_range])

theorem specCorrectChars_le_overlap :
    ∀ (tw ew : List (List Char)), specCorrectChars ew tw ≤ overlapTotalChars ew tw := by
  intro tw
  induction tw with
  | nil => intro ew; rw [specCorrectChars_nil_left]; exact Nat.zero_le _
  | cons t tw ih =>
    intro ew
    cases ew with
    | nil => rw [specCorrectChars_nil_right]; exact Nat.zero_le _
    | cons e ew =>
      rw [specCorrectChars_cons, overlapTotalChars_cons]
      exact Nat.add_le_add (matchingBytes_le _ _) (ih ew)

theorem overlapTotalChars_le_sum :
    ∀ (tw ew : List (List Char)),
      overlapTotalChars ew tw ≤ (ew.map (fun e => (bytes e).length)).sum := by
  intro tw
  induction tw with
  | nil => intro ew; rw [overlapTotalChars_nil_left]; exact Nat.zero_le _
  | cons t tw ih =>
    intro ew
    cases ew with
    | nil => rw [overlapTotalChars_nil_right]; exact Nat.zero_le _
    | cons e ew =>
      rw [overlapTotalChars_cons, List.map_cons, List.sum_cons]
      exact Nat.add_le_add (Nat.min_le_right _ _) (ih ew)

theorem overlapTotalChars_le (tw : List (List Char)) :
    overlapTotalChars reference tw ≤ 26 := by
  have h : (reference.map (fun e => (bytes e).length)).sum = 26 := by decide
  exact h ▸ overlapTotalChars_le_sum tw reference

theorem specCorrectWords_le (tw : List (List Char)) : specCorrectWords reference tw ≤ 7 := by
  unfold specCorrectWords
  refine (List.countP_le_length _).trans ?_
  rw [List.length_range]
  exact Nat.min_le_right _ _

theorem wpmOf_score (value : List Char) :
    wpmOf (score value) = Float64.ofNat (12 * specCorrectWords reference (Fields value)) := by
  rw [score_spec]
  exact wpm_small _ (specCorrectWords_le _)

theorem toRat_wpmOf_score (value : List Char) :
    Float64.toRat (wpmOf (score value))
      = some (12 * (specCorrectWords reference (Fields value) : ℚ)) := by
  rw [wpmOf_score, toRat_of_isNat _ _ (ofNat_isNat_small _ (specCorrectWords_le _))]
  push_cast
  rfl

theorem accuracyOf_score (value : List Char) :
    accuracyOf (score value)
      = Float64.mul
          (Float64.div (Float64.ofNat (specCorrectChars reference (Fields value)))
            (Float64.ofNat (overlapTotalChars reference (Fields value))))
          (Float64.ofNat 100) := by
  rw [score_spec]
  rfl

theorem accuracyOf_score_close (value : List Char) (h : Fields value ≠ []) :
    ∃ r : ℚ, Float64.toRat (accuracyOf (score value)) = some r ∧
      |r - 100 * (specCorrectChars reference (Fields value) : ℚ)
          / (overlapTotalChars reference (Fields value) : ℚ)| ≤ 1 / 2 ^ 46 := by
  have hpos := overlapTotalChars_pos value h
  have hc := accuracy_close _ (overlapTotalChars_le (Fields value)) _
    (specCorrectChars_le_overlap (Fields value) reference) hpos
  rw [accuracyOf_score]
  obtain ⟨r, hr, hb⟩ := closeTo_bound _ _ _ _ hpos hc
  refine ⟨r, hr, ?_⟩
  push_cast at hb
  exact hb
/-! ## Lemmas on the state machine -/

theorem Matches_enabled (str : String) (b : Binding) (h : Matches str b = true) :
    b.Enabled = true := by
  simp only [Matches, List.any_eq_true, Bool.and_eq_true] at h
  obtain ⟨_, _, _, h⟩ := h
  exact h

theorem Enabled_of_keys (b : Binding) (k : String) (ks : List String) (h : b.keys = k :: ks) :
    b.Enabled = !b.disabled := by
  simp [Binding.Enabled, h]

theorem initial_lifecycleInv : lifecycleInv initialModel := by
  simp [lifecycleInv, bindingsInv, keysOfMain, initialModel, NewBinding, Binding.SetEnabled]

theorem Update_bindingsInv (L : Lib) (m : model) (msg : Msg) (h : bindingsInv m) :
    bindingsInv (Update L m msg) := by
  obtain ⟨⟨k1, k2, k3, k4⟩, h1, h2, h3⟩ := h
  cases msg with
  | WindowSizeMsg w ht =>
    unfold Update
    simp only
    split_ifs <;> exact ⟨⟨k1, k2, k3, k4⟩, h1, h2, h3⟩
  | TickMsg ID => exact ⟨⟨k1, k2, k3, k4⟩, h1, h2, h3⟩
  | KeyMsg str r =>
    unfold Update
    simp only
    split_ifs with hq hs hr
    · exact ⟨⟨k1, k2, k3, k4⟩, h1, h2, h3⟩
    · exact ⟨⟨k1, k2, k3, k4⟩, by simp [Binding.SetEnabled], by simp [Binding.SetEnabled],
        by simp⟩
    · exact ⟨⟨k1, k2, k3, k4⟩, by simp [Binding.SetEnabled], by simp,
        by simp [Binding.SetEnabled]⟩
    · exact ⟨⟨k1, k2, k3, k4⟩, h1, h2, h3⟩
  | TimeoutMsg ID =>
    exact ⟨⟨k1, k2, k3, k4⟩, h1, by simp [Update], by simp [Update]⟩
  | other p => exact ⟨⟨k1, k2, k3, k4⟩, h1, h2, h3⟩

theorem run_bindingsInv (L : Lib) :
    ∀ (msgs : List Msg) (m : model), bindingsInv m → bindingsInv (run L m msgs) := by
  intro msgs
  induction msgs with
  | nil => intro m h; exact h
  | cons msg rest ih => intro m h; exact ih _ (Update_bindingsInv L m msg h)

theorem Update_lifecycleInv (L : Lib) (m : model) (msg : Msg) (h : lifecycleInv m)
    (ht : ∀ ID, msg = .TimeoutMsg ID → m.started = true) :
    lifecycleInv (Update L m msg) := by
  refine ⟨Update_bindingsInv L m msg h.1, ?_⟩
  obtain ⟨⟨⟨k1, k2, k3, k4⟩, h1, h2, h3⟩, h4, h5⟩ := h
  cases msg with
  | WindowSizeMsg w ht =>
    unfold Update
    simp only
    split_ifs <;> exact ⟨h4, h5⟩
  | TickMsg ID => exact ⟨h4, h5⟩
  | KeyMsg str r =>
    unfold Update
    simp only
    split_ifs with hq hs hr
    · exact ⟨h4, h5⟩
    · have hen := Matches_enabled _ _ hs
      rw [Enabled_of_keys _ _ _ k1] at hen
      have hidle := h4.1 (by simpa using hen)
      simp [Binding.SetEnabled, hidle.2]
    · simp [Binding.SetEnabled]
    · exact ⟨h4, h5⟩
  | TimeoutMsg ID =>
    have hst := ht ID rfl
    have hr := h2 hst
    simp [Update, h1, hr]
  | other p => exact ⟨h4, h5⟩

theorem run_lifecycleInv (L : Lib) :
    ∀ (msgs : List Msg) (m : model), lifecycleInv m → timeoutsWhileStarted L m msgs = true →
      lifecycleInv (run L m msgs) := by
  intro msgs
  induction msgs with
  | nil => intro m h _; exact h
  | cons msg rest ih =>
    intro m h ht
    simp only [timeoutsWhileStarted, Bool.and_eq_true] at ht
    refine ih _ (Update_lifecycleInv L m msg h ?_) ht.2
    intro ID hmsg
    rw [hmsg] at ht
    exact ht.1

/-! ## The claims on the scoring -/

/-- C1 (as stated, refuted): for the buffer "h", typed in a running test, the
accuracy stored on timeout is 100, while the claimed quotient, which counts
both byte positions of the reference word "hi", is 100 * 1 / 2.  For the
buffer "hi onli" the stored accuracy is the binary64 number
5864062014805334 * 2^(-46) (83.33333333333334), not the quotient 100 * 5 / 6. -/
theorem C1_counterexample :
    Fields (run bubbles initialModel (Msg.KeyMsg "." ['.'] :: typeKeys "h")).textInput.Value ≠ [] ∧
    (run bubbles initialModel
        (Msg.KeyMsg "." ['.'] :: typeKeys "h" ++ [Msg.TimeoutMsg 1])).accuracy
      = Float64.ofNat 100 ∧
    specCorrectChars reference (Fields "h".toList) = 1 ∧
    specTotalChars reference (Fields "h".toList) = 2 ∧
    Float64.toRat (run bubbles initialModel
        (Msg.KeyMsg "." ['.'] :: typeKeys "h" ++ [Msg.TimeoutMsg 1])).accuracy
      ≠ some (100 * (specCorrectChars reference (Fields "h".toList) : ℚ)
          / (specTotalChars reference (Fields "h".toList) : ℚ)) ∧
    (run bubbles initialModel
        (Msg.KeyMsg "." ['.'] :: typeKeys "hi onli" ++ [Msg.TimeoutMsg 1])).accuracy
      = Float64.fin false 5864062014805334 (-46) ∧
    specCorrectChars reference (Fields "hi onli".toList) = 5 ∧
    specTotalChars reference (Fields "hi onli".toList) = 6 ∧
    Float64.toRat (run bubbles initialModel
        (Msg.KeyMsg "." ['.'] :: typeKeys "hi onli" ++ [Msg.TimeoutMsg 1])).accuracy
      ≠ some (100 * (specCorrectChars reference (Fields "hi onli".toList) : ℚ)
          / (specTotalChars reference (Fields "hi onli".toList) : ℚ)) := by
  have hv : (run bubbles initialModel (Msg.KeyMsg "." ['.'] :: typeKeys "h")).textInput.Value
      = "h".toList := by decide
  have hs : score "h".toList = ⟨1, 1, 0⟩ := by decide
  have ha : (run bubbles initialModel
      (Msg.KeyMsg "." ['.'] :: typeKeys "h" ++ [Msg.TimeoutMsg 1])).accuracy
        = Float64.ofNat 100 := by
    rw [run_snoc, Update_timeout_accuracy, hv, hs]
    set_option maxRecDepth 4000 in decide
  have hc : specCorrectChars reference (Fields "h".toList) = 1 := by decide
  have ht : specTotalChars reference (Fields "h".toList) = 2 := by decide
  have hv' : (run bubbles initialModel
      (Msg.KeyMsg "." ['.'] :: typeKeys "hi onli")).textInput.Value = "hi onli".toList := by
    decide
  have hs' : score "hi onli".toList = ⟨5, 6, 1⟩ := by decide
  have hb : (run bubbles initialModel
      (Msg.KeyMsg "." ['.'] :: typeKeys "hi onli" ++ [Msg.TimeoutMsg 1])).accuracy
        = Float64.fin false 5864062014805334 (-46) := by
    rw [run_snoc, Update_timeout_accuracy, hv', hs']
    set_option maxRecDepth 4000 in decide
  have hc' : specCorrectChars reference (Fields "hi onli".toList) = 5 := by decide
  have ht' : specTotalChars reference (Fields "hi onli".toList) = 6 := by decide
  refine ⟨by rw [hv]; decide, ha, hc, ht, ?_, hb, hc', ht', ?_⟩
  · rw [ha, toRat_of_isNat _ _ ofNat_isNat_hundred, hc, ht]
    norm_num
  · rw [hb, hc', ht']
    simp only [Float64.toRat, Bool.false_eq_true, if_false]
    norm_num

/-- C1 (amended): for every input buffer value that contains at least one
word, the accuracy stored by `Update` on `timer.TimeoutMsg` is the binary64
value of `(float64(correctChars) / float64(totalChars)) * 100`, a finite number
within 2^(-46) of the quotient `100 * correctChars / totalChars`, where, over
the word positions `i < min(number of typed words, 7)`, `totalChars` counts the
byte positions `j < min(len(typedWords[i]), len(reference[i]))` (it is
positive) and `correctChars` those of them at which the typed byte equals the
reference byte. -/
theorem C1_accuracy_over_overlap (L : Lib) (m : model) (ID : Nat)
    (h : Fields m.textInput.Value ≠ []) :
    0 < overlapTotalChars reference (Fields m.textInput.Value) ∧
    (Update L m (.TimeoutMsg ID)).accuracy
      = Float64.mul
          (Float64.div (Float64.ofNat (specCorrectChars reference (Fields m.textInput.Value)))
            (Float64.ofNat (overlapTotalChars reference (Fields m.textInput.Value))))
          (Float64.ofNat 100) ∧
    ∃ r : ℚ, Float64.toRat (Update L m (.TimeoutMsg ID)).accuracy = some r ∧
      |r - 100 * (specCorrectChars reference (Fields m.textInput.Value) : ℚ)
          / (overlapTotalChars reference (Fields m.textInput.Value) : ℚ)| ≤ 1 / 2 ^ 46 :=
  ⟨overlapTotalChars_pos m.textInput.Value h, accuracyOf_score m.textInput.Value,
    accuracyOf_score_close m.textInput.Value h⟩

/-- C1 (amended), at the buffer "hi onli": correctChars = 5, totalChars = 6 and
the stored accuracy is the binary64 product of `float64(5) / float64(6)` and
100, which is 5864062014805334 * 2^(-46) (83.33333333333334). -/
theorem C1_accuracy_over_overlap_witness :
    Fields (withInput initialModel "hi onli").textInput.Value ≠ [] ∧
    specCorrectChars reference (Fields (withInput initialModel "hi onli").textInput.Value) = 5 ∧
    overlapTotalChars reference (Fields (withInput initialModel "hi onli").textInput.Value) = 6 ∧
    (Update bubbles (withInput initialModel "hi onli") (.TimeoutMsg 1)).accuracy
      = Float64.mul (Float64.div (Float64.ofNat 5) (Float64.ofNat 6)) (Float64.ofNat 100) ∧
    (Update bubbles (withInput initialModel "hi onli") (.TimeoutMsg 1)).accuracy
      = Float64.fin false 5864062014805334 (-46) := by
  have hc : specCorrectChars reference
      (Fields (withInput initialModel "hi onli").textInput.Value) = 5 := by decide
  have ht : overlapTotalChars reference
      (Fields (withInput initialModel "hi onli").textInput.Value) = 6 := by decide
  have h := (C1_accuracy_over_overlap bubbles (withInput initialModel "hi onli") 1
    (by decide)).2.1
  rw [hc, ht] at h
  exact ⟨by decide, hc, ht, h, by rw [h]; set_option maxRecDepth 4000 in decide⟩

/-- C2: for every input buffer value, the wpm stored by `Update` on
`timer.TimeoutMsg` is `correctWords / (5/60) = 12 * correctWords`, exactly, with
`correctWords` the number of positions `i < min(number of typed words, 7)` at
which the typed word is the i-th word of the reference phrase; the timer does
not enter the value.  The buffers "hi only few" and "hi onli" give 36 and 12. -/
theorem C2_wpm_is_twelve_per_correct_word (L : Lib) (m : model) (ID : Nat) :
    Fields words = reference ∧ reference.length = 7 ∧
    Float64.toRat (Update L m (.TimeoutMsg ID)).wpm
      = some ((specCorrectWords reference (Fields m.textInput.Value) : ℚ) / (5 / 60)) ∧
    Float64.toRat (Update L m (.TimeoutMsg ID)).wpm
      = some (12 * (specCorrectWords reference (Fields m.textInput.Value) : ℚ)) ∧
    (Update L m (.TimeoutMsg ID)).wpm
      = Float64.ofNat (12 * specCorrectWords reference (Fields m.textInput.Value)) ∧
    (Update L (withInput m "hi only few") (.TimeoutMsg ID)).wpm = Float64.ofNat 36 ∧
    Float64.toRat (Update L (withInput m "hi only few") (.TimeoutMsg ID)).wpm = some 36 ∧
    (Update L (withInput m "hi onli") (.TimeoutMsg ID)).wpm = Float64.ofNat 12 ∧
    Float64.toRat (Update L (withInput m "hi onli") (.TimeoutMsg ID)).wpm = some 12 := by
  have h36 : specCorrectWords reference (Fields "hi only few".toList) = 3 := by decide
  have h12 : specCorrectWords reference (Fields "hi onli".toList) = 1 := by decide
  refine ⟨expectedWords_eq, by decide, ?_, ?_, ?_, ?_, ?_, ?_, ?_⟩
  · rw [Update_timeout_wpm, toRat_wpmOf_score]
    congr 1
    ring
  · rw [Update_timeout_wpm, toRat_wpmOf_score]
  · rw [Update_timeout_wpm, wpmOf_score]
  · rw [Update_timeout_wpm, withInput_value, wpmOf_score, h36]
  · rw [Update_timeout_wpm, withInput_value, toRat_wpmOf_score, h36]
    norm_num
  · rw [Update_timeout_wpm, withInput_value, wpmOf_score, h12]
  · rw [Update_timeout_wpm, withInput_value, toRat_wpmOf_score, h12]
    norm_num

/-- C3 (the code at the failing input): a test is started and the timer times
out with nothing typed; the stored wpm is 0, the stored accuracy is the NaN of
the division 0/0 and not 0. -/
theorem C3_empty_buffer_accuracy_is_NaN :
    (run bubbles initialModel [Msg.KeyMsg "." ['.'], Msg.TimeoutMsg 1]).wpm = Float64.ofNat 0 ∧
    Float64.toRat (run bubbles initialModel [Msg.KeyMsg "." ['.'], Msg.TimeoutMsg 1]).wpm
      = some 0 ∧
    (run bubbles initialModel [Msg.KeyMsg "." ['.'], Msg.TimeoutMsg 1]).accuracy = Float64.NaN ∧
    (run bubbles initialModel [Msg.KeyMsg "." ['.'], Msg.TimeoutMsg 1]).accuracy
      ≠ Float64.ofNat 0 ∧
    Float64.toRat (run bubbles initialModel [Msg.KeyMsg "." ['.'], Msg.TimeoutMsg 1]).accuracy
      ≠ some 0 := by
  have hv : (run bubbles initialModel [Msg.KeyMsg "." ['.']]).textInput.Value = [] := by decide
  have hs : score [] = ⟨0, 0, 0⟩ := by decide
  have hw : (run bubbles initialModel [Msg.KeyMsg "." ['.'], Msg.TimeoutMsg 1]).wpm
      = Float64.ofNat 0 := by
    show (Update bubbles (run bubbles initialModel [Msg.KeyMsg "." ['.']])
      (Msg.TimeoutMsg 1)).wpm = _
    rw [Update_timeout_wpm, hv, hs]
    decide
  have ha : (run bubbles initialModel [Msg.KeyMsg "." ['.'], Msg.TimeoutMsg 1]).accuracy
      = Float64.NaN := by
    show (Update bubbles (run bubbles initialModel [Msg.KeyMsg "." ['.']])
      (Msg.TimeoutMsg 1)).accuracy = _
    rw [Update_timeout_accuracy, hv, hs]
    set_option maxRecDepth 4000 in decide
  refine ⟨hw, ?_, ha, by rw [ha]; decide, ?_⟩
  · rw [hw, toRat_of_isNat _ 0 (by decide)]
    norm_num
  · rw [ha]
    simp [Float64.toRat]

/-- C8: typed words beyond the seven of the reference are ignored: when the
buffer of `m` has at least 7 words and the words of the buffer of `m'` are
those of `m` followed by extra words `e`, the wpm and the accuracy stored on
timeout are the same for both. -/
theorem C8_extra_words_ignored (L : Lib) (m m' : model) (ID ID' : Nat) (e : List (List Char))
    (hlen : 7 ≤ (Fields m.textInput.Value).length)
    (h : Fields m'.textInput.Value = Fields m.textInput.Value ++ e) :
    (Update L m' (.TimeoutMsg ID')).wpm = (Update L m (.TimeoutMsg ID)).wpm ∧
    (Update L m' (.TimeoutMsg ID')).accuracy = (Update L m (.TimeoutMsg ID)).accuracy := by
  simp only [Update_timeout_wpm, Update_timeout_accuracy,
    score_extra m.textInput.Value m'.textInput.Value e hlen h, and_self]

/-- C8, at the buffers "hi only few people can read this" and
"hi only few people can read this extra words": both score wpm = 84 and
accuracy = 100. -/
theorem C8_extra_words_ignored_witness :
    7 ≤ (Fields (withInput initialModel "hi only few people can read this").textInput.Value).length ∧
    Fields (withInput initialModel
        "hi only few people can read this extra words").textInput.Value
      = Fields (withInput initialModel "hi only few people can read this").textInput.Value
          ++ ["extra".toList, "words".toList] ∧
    (Update bubbles (withInput initialModel "hi only few people can read this extra words")
        (.TimeoutMsg 1)).wpm = Float64.ofNat 84 ∧
    Float64.toRat (Update bubbles
        (withInput initialModel "hi only few people can read this extra words")
        (.TimeoutMsg 1)).wpm = some 84 ∧
    (Update bubbles (withInput initialModel "hi only few people can read this extra words")
        (.TimeoutMsg 1)).accuracy = Float64.ofNat 100 ∧
    Float64.toRat (Update bubbles
        (withInput initialModel "hi only few people can read this extra words")
        (.TimeoutMsg 1)).accuracy = some 100 := by
  have h := C8_extra_words_ignored bubbles
    (withInput initialModel "hi only few people can read this")
    (withInput initialModel "hi only few people can read this extra words") 1 1
    ["extra".toList, "words".toList] (by decide) (by decide)
  have hs : score "hi only few people can read this".toList = ⟨26, 26, 7⟩ := by decide
  have hw : (Update bubbles (withInput initialModel "hi only few people can read this")
      (.TimeoutMsg 1)).wpm = Float64.ofNat 84 := by
    rw [Update_timeout_wpm, withInput_value, hs]
    decide
  have ha : (Update bubbles (withInput initialModel "hi only few people can read this")
      (.TimeoutMsg 1)).accuracy = Float64.ofNat 100 := by
    rw [Update_timeout_accuracy, withInput_value, hs]
    set_option maxRecDepth 4000 in decide
  refine ⟨by decide, by decide, ?_, ?_, ?_, ?_⟩
  · rw [h.1, hw]
  · rw [h.1, hw, toRat_of_isNat _ 84 (by decide)]
    norm_num
  · rw [h.2, ha]
  · rw [h.2, ha, toRat_of_isNat _ 100 (by decide)]
    norm_num
/-! ## The claims on the state machine -/

/-- C4 (as stated, refuted): a test is started, "hi" is typed and the timer
times out, which stores wpm = 12 and accuracy = 100 in the Finished state; a
second timeout overwrites the wpm with 0. -/
theorem C4_counterexample :
    (run bubbles initialModel
        (Msg.KeyMsg "." ['.'] :: typeKeys "hi" ++ [Msg.TimeoutMsg 1])).ended = true ∧
    (run bubbles initialModel
        (Msg.KeyMsg "." ['.'] :: typeKeys "hi" ++ [Msg.TimeoutMsg 1])).started = false ∧
    (run bubbles initialModel
        (Msg.KeyMsg "." ['.'] :: typeKeys "hi" ++ [Msg.TimeoutMsg 1])).wpm = Float64.ofNat 12 ∧
    (run bubbles initialModel
        (Msg.KeyMsg "." ['.'] :: typeKeys "hi" ++ [Msg.TimeoutMsg 1])).accuracy
      = Float64.ofNat 100 ∧
    (Update bubbles (run bubbles initialModel
        (Msg.KeyMsg "." ['.'] :: typeKeys "hi" ++ [Msg.TimeoutMsg 1])) (Msg.TimeoutMsg 1)).wpm
      = Float64.ofNat 0 ∧
    (Update bubbles (run bubbles initialModel
        (Msg.KeyMsg "." ['.'] :: typeKeys "hi" ++ [Msg.TimeoutMsg 1])) (Msg.TimeoutMsg 1)).wpm
      ≠ (run bubbles initialModel
        (Msg.KeyMsg "." ['.'] :: typeKeys "hi" ++ [Msg.TimeoutMsg 1])).wpm := by
  have hv : (run bubbles initialModel (Msg.KeyMsg "." ['.'] :: typeKeys "hi")).textInput.Value
      = "hi".toList := by decide
  have hs : score "hi".toList = ⟨2, 2, 1⟩ := by decide
  have hs0 : score [] = ⟨0, 0, 0⟩ := by decide
  have hw : (run bubbles initialModel
      (Msg.KeyMsg "." ['.'] :: typeKeys "hi" ++ [Msg.TimeoutMsg 1])).wpm = Float64.ofNat 12 := by
    rw [run_snoc, Update_timeout_wpm, hv, hs]
    decide
  have ha : (run bubbles initialModel
      (Msg.KeyMsg "." ['.'] :: typeKeys "hi" ++ [Msg.TimeoutMsg 1])).accuracy
        = Float64.ofNat 100 := by
    rw [run_snoc, Update_timeout_accuracy, hv, hs]
    set_option maxRecDepth 4000 in decide
  have hv2 : (run bubbles initialModel
      (Msg.KeyMsg "." ['.'] :: typeKeys "hi" ++ [Msg.TimeoutMsg 1])).textInput.Value = [] := by
    rw [run_snoc]; rfl
  have hw2 : (Update bubbles (run bubbles initialModel
      (Msg.KeyMsg "." ['.'] :: typeKeys "hi" ++ [Msg.TimeoutMsg 1])) (Msg.TimeoutMsg 1)).wpm
        = Float64.ofNat 0 := by
    rw [Update_timeout_wpm, hv2, hs0]
    decide
  refine ⟨by rw [run_snoc]; rfl, by rw [run_snoc]; rfl, hw, ha, hw2, ?_⟩
  rw [hw2, hw]
  decide

/-- C4 (amended): `Update` has no guard on started or ended in the
`timer.TimeoutMsg` case, so a timeout handled in any state, Finished included,
scores the current input buffer again and overwrites the result: the wpm
becomes 12 * correctWords of the current buffer and, when the buffer holds at
least one word, the accuracy becomes that of the current buffer.  A timeout
empties the buffer, so a second timeout that directly follows a first one
overwrites the wpm with 0; started = false, ended = true, the empty buffer,
the timer, the key bindings, the cursor and the size stay as the first timeout
left them. -/
theorem C4_second_timeout_rescores (L : Lib) (m : model) (ID ID' : Nat) :
    (Update L m (.TimeoutMsg ID)).wpm
      = Float64.ofNat (12 * specCorrectWords reference (Fields m.textInput.Value)) ∧
    (Fields m.textInput.Value ≠ [] →
      (Update L m (.TimeoutMsg ID)).accuracy
        = Float64.mul
            (Float64.div (Float64.ofNat (specCorrectChars reference (Fields m.textInput.Value)))
              (Float64.ofNat (overlapTotalChars reference (Fields m.textInput.Value))))
            (Float64.ofNat 100)) ∧
    (Update L m (.TimeoutMsg ID)).textInput.Value = [] ∧
    (Update L (Update L m (.TimeoutMsg ID)) (.TimeoutMsg ID')).wpm = Float64.ofNat 0 ∧
    (Update L (Update L m (.TimeoutMsg ID)) (.TimeoutMsg ID')).started = false ∧
    (Update L (Update L m (.TimeoutMsg ID)) (.TimeoutMsg ID')).ended = true ∧
    (Update L (Update L m (.TimeoutMsg ID)) (.TimeoutMsg ID')).textInput
      = (Update L m (.TimeoutMsg ID)).textInput ∧
    (Update L (Update L m (.TimeoutMsg ID)) (.TimeoutMsg ID')).timer
      = (Update L m (.TimeoutMsg ID)).timer ∧
    (Update L (Update L m (.TimeoutMsg ID)) (.TimeoutMsg ID')).keymap
      = (Update L m (.TimeoutMsg ID)).keymap ∧
    (Update L (Update L m (.TimeoutMsg ID)) (.TimeoutMsg ID')).cursor
      = (Update L m (.TimeoutMsg ID)).cursor ∧
    (Update L (Update L m (.TimeoutMsg ID)) (.TimeoutMsg ID')).width
      = (Update L m (.TimeoutMsg ID)).width ∧
    (Update L (Update L m (.TimeoutMsg ID)) (.TimeoutMsg ID')).height
      = (Update L m (.TimeoutMsg ID)).height := by
  have hs0 : score [] = ⟨0, 0, 0⟩ := by decide
  have hv : (Update L m (.TimeoutMsg ID)).textInput.Value = [] := rfl
  refine ⟨?_, ?_, hv, ?_, rfl, rfl, rfl, rfl, rfl, rfl, rfl, rfl⟩
  · rw [Update_timeout_wpm, wpmOf_score]
  · intro _
    rw [Update_timeout_accuracy, accuracyOf_score]
  · rw [Update_timeout_wpm, hv, hs0]
    decide

/-- C4 (amended), at a Finished model: after start, "hi", timeout (wpm = 12)
the key 'h' is typed, so the buffer holds one word; the next timeout stores
the score of that buffer, wpm = 0 and accuracy = 100. -/
theorem C4_second_timeout_rescores_witness :
    (run bubbles initialModel
      (Msg.KeyMsg "." ['.'] :: typeKeys "hi" ++ [Msg.TimeoutMsg 1, Msg.KeyMsg "h" ['h']])).ended
      = true ∧
    (run bubbles initialModel
      (Msg.KeyMsg "." ['.'] :: typeKeys "hi" ++ [Msg.TimeoutMsg 1, Msg.KeyMsg "h" ['h']])).started
      = false ∧
    Fields (run bubbles initialModel
      (Msg.KeyMsg "." ['.'] :: typeKeys "hi" ++
        [Msg.TimeoutMsg 1, Msg.KeyMsg "h" ['h']])).textInput.Value ≠ [] ∧
    (Update bubbles (run bubbles initialModel
      (Msg.KeyMsg "." ['.'] :: typeKeys "hi" ++ [Msg.TimeoutMsg 1, Msg.KeyMsg "h" ['h']]))
        (.TimeoutMsg 1)).wpm = Float64.ofNat 0 ∧
    (Update bubbles (run bubbles initialModel
      (Msg.KeyMsg "." ['.'] :: typeKeys "hi" ++ [Msg.TimeoutMsg 1, Msg.KeyMsg "h" ['h']]))
        (.TimeoutMsg 1)).accuracy = Float64.ofNat 100 := by
  have hv : (run bubbles initialModel
      (Msg.KeyMsg "." ['.'] :: typeKeys "hi" ++
        [Msg.TimeoutMsg 1, Msg.KeyMsg "h" ['h']])).textInput.Value = "h".toList := by
    decide
  have hne : Fields (run bubbles initialModel
      (Msg.KeyMsg "." ['.'] :: typeKeys "hi" ++
        [Msg.TimeoutMsg 1, Msg.KeyMsg "h" ['h']])).textInput.Value ≠ [] := by
    rw [hv]; decide
  have h := C4_second_timeout_rescores bubbles (run bubbles initialModel
      (Msg.KeyMsg "." ['.'] :: typeKeys "hi" ++ [Msg.TimeoutMsg 1, Msg.KeyMsg "h" ['h']])) 1 1
  have hw := h.1
  have ha := h.2.1 hne
  rw [hv] at hw ha
  refine ⟨by decide, by decide, hne, ?_, ?_⟩
  · rw [hw]; decide
  · rw [ha]; set_option maxRecDepth 4000 in decide

/-- C5 (as stated, refuted): after a start and a timeout the state is Finished
and the start binding is disabled, and '.' does not start a new test.  A
timeout handled in the Idle state gives a Finished state with the reset binding
disabled. -/
theorem C5_counterexample :
    (run bubbles initialModel [Msg.KeyMsg "." ['.'], Msg.TimeoutMsg 1]).ended = true ∧
    (run bubbles initialModel [Msg.KeyMsg "." ['.'], Msg.TimeoutMsg 1]).started = false ∧
    (run bubbles initialModel
      [Msg.KeyMsg "." ['.'], Msg.TimeoutMsg 1]).keymap.start.Enabled = false ∧
    (run bubbles initialModel
      [Msg.KeyMsg "." ['.'], Msg.TimeoutMsg 1, Msg.KeyMsg "." ['.']]).started = false ∧
    (run bubbles initialModel [Msg.TimeoutMsg 1]).ended = true ∧
    (run bubbles initialModel [Msg.TimeoutMsg 1]).keymap.reset.Enabled = false := by
  decide

/-- C5 (amended): in every model reachable from the initial model by any
sequence of messages, the start binding is enabled iff the reset binding is
disabled, start is enabled in Idle and reset is enabled in Running; a timeout
leaves both bindings as they are; and when reset is enabled, the reset key
followed by '.' starts a test.  For the sequences in which every timeout
arrives while a test is running, start is enabled iff the state is Idle, reset
is enabled iff the state is Running or Finished, and in Finished the key '.'
starts nothing: it falls through to the text input and leaves started = false,
ended = true and the key bindings as they are. -/
theorem C5_command_availability (L : Lib) (msgs : List Msg) (ID : Nat)
    (Runes Runes' : List Char) :
    ((run L initialModel msgs).keymap.start.Enabled
      = !(run L initialModel msgs).keymap.reset.Enabled) ∧
    ((run L initialModel msgs).started = false → (run L initialModel msgs).ended = false →
      (run L initialModel msgs).keymap.start.Enabled = true) ∧
    ((run L initialModel msgs).started = true →
      (run L initialModel msgs).keymap.reset.Enabled = true) ∧
    (Update L (run L initialModel msgs) (.TimeoutMsg ID)).keymap
      = (run L initialModel msgs).keymap ∧
    ((run L initialModel msgs).keymap.reset.Enabled = true →
      (Update L (Update L (run L initialModel msgs) (.KeyMsg "tab" Runes'))
        (.KeyMsg "." Runes)).started = true) ∧
    (timeoutsWhileStarted L initialModel msgs = true →
      ((run L initialModel msgs).keymap.start.Enabled = true ↔
        ((run L initialModel msgs).started = false ∧ (run L initialModel msgs).ended = false)) ∧
      ((run L initialModel msgs).keymap.reset.Enabled = true ↔
        ((run L initialModel msgs).started = true ∨ (run L initialModel msgs).ended = true)) ∧
      ((run L initialModel msgs).ended = true →
        Update L (run L initialModel msgs) (.KeyMsg "." Runes)
          = fallThrough L (run L initialModel msgs) (.KeyMsg "." Runes) ∧
        (Update L (run L initialModel msgs) (.KeyMsg "." Runes)).started = false ∧
        (Update L (run L initialModel msgs) (.KeyMsg "." Runes)).ended = true ∧
        (Update L (run L initialModel msgs) (.KeyMsg "." Runes)).keymap
          = (run L initialModel msgs).keymap)) := by
  have hb := run_bindingsInv L msgs initialModel initial_lifecycleInv.1
  obtain ⟨⟨k1, k2, k3, k4⟩, h1, h2, h3⟩ := hb
  have es := Enabled_of_keys _ _ _ k1
  have er := Enabled_of_keys _ _ _ k2
  have hq : ∀ mk : model, mk.keymap.quit = (run L initialModel msgs).keymap.quit →
      Matches "." mk.keymap.quit = false := by
    intro mk hmk
    simp [Matches, hmk, k3]
  refine ⟨?_, ?_, ?_, rfl, ?_, ?_⟩
  · rw [es, er, h1]
  · intro hs he; rw [es, h3 hs he]; rfl
  · intro hs; rw [er, h2 hs]; rfl
  · intro hen
    have hq1 : Matches "tab" (run L initialModel msgs).keymap.quit = false := by
      simp [Matches, k3]
    have hs1 : Matches "tab" (run L initialModel msgs).keymap.start = false := by
      simp [Matches, k1]
    have hr1 : Matches "tab" (run L initialModel msgs).keymap.reset = true := by
      simp [Matches, k2, hen]
    have hreset : Update L (run L initialModel msgs) (.KeyMsg "tab" Runes')
        = { run L initialModel msgs with
              timer := NewWithInterval timeout millisecond,
              keymap := { (run L initialModel msgs).keymap with
                start := (run L initialModel msgs).keymap.start.SetEnabled true,
                reset := (run L initialModel msgs).keymap.reset.SetEnabled false },
              textInput := (run L initialModel msgs).textInput.Reset,
              cursor := (run L initialModel msgs).cursor.Blur,
              started := false,
              ended := false } := by
      unfold Update
      simp only [hq1, hs1, hr1]
      simp
    rw [hreset]
    unfold Update
    simp [Matches, k1, k3, Binding.SetEnabled, Binding.Enabled]
  · intro ht
    obtain ⟨_, h4, h5⟩ := run_lifecycleInv L msgs initialModel initial_lifecycleInv ht
    rw [es, er]
    refine ⟨?_, ?_, ?_⟩
    · rw [← h4]; simp
    · rw [h1] at h4
      cases hst : (run L initialModel msgs).started <;>
        cases hen : (run L initialModel msgs).ended <;>
        cases hd : (run L initialModel msgs).keymap.reset.disabled <;>
        simp_all
    · intro hend
      have hdis : (run L initialModel msgs).keymap.start.disabled = true := by
        cases hd : (run L initialModel msgs).keymap.start.disabled
        · have := (h4.1 hd).2
          rw [hend] at this
          exact absurd this (by decide)
        · rfl
      have hq0 : Matches "." (run L initialModel msgs).keymap.quit = false := by
        simp [Matches, k3]
      have hs0 : Matches "." (run L initialModel msgs).keymap.start = false := by
        simp [Matches, k1, Binding.Enabled, hdis]
      have hr0 : Matches "." (run L initialModel msgs).keymap.reset = false := by
        simp [Matches, k2]
      have hfall : Update L (run L initialModel msgs) (.KeyMsg "." Runes)
          = fallThrough L (run L initialModel msgs) (.KeyMsg "." Runes) := by
        unfold Update
        simp [hq0, hs0, hr0]
      rw [hfall]
      exact ⟨rfl, h5 hend, hend, rfl⟩

/-- C5 (amended), at the sequence start, timeout: the timeout arrives while
running; in the Finished state reached reset is enabled, start is disabled,
'.' leaves started = false, and the reset key followed by '.' starts a test. -/
theorem C5_command_availability_witness :
    timeoutsWhileStarted bubbles initialModel [Msg.KeyMsg "." ['.'], Msg.TimeoutMsg 1] = true ∧
    (run bubbles initialModel [Msg.KeyMsg "." ['.'], Msg.TimeoutMsg 1]).ended = true ∧
    (run bubbles initialModel [Msg.KeyMsg "." ['.'], Msg.TimeoutMsg 1]).keymap.reset.Enabled
      = true ∧
    (run bubbles initialModel [Msg.KeyMsg "." ['.'], Msg.TimeoutMsg 1]).keymap.start.Enabled
      = false ∧
    (Update bubbles (run bubbles initialModel [Msg.KeyMsg "." ['.'], Msg.TimeoutMsg 1])
      (.KeyMsg "." ['.'])).started = false ∧
    (Update bubbles (Update bubbles
      (run bubbles initialModel [Msg.KeyMsg "." ['.'], Msg.TimeoutMsg 1]) (.KeyMsg "tab" []))
      (.KeyMsg "." ['.'])).started = true :=
  ⟨by decide, by decide, by decide, by decide,
    ((C5_command_availability bubbles [Msg.KeyMsg "." ['.'], Msg.TimeoutMsg 1] 1 ['.'] []).2.2.2.2.2
      (by decide)).2.2 (by decide) |>.2.1,
    (C5_command_availability bubbles [Msg.KeyMsg "." ['.'], Msg.TimeoutMsg 1] 1 ['.'] []).2.2.2.2.1
      (by decide)⟩

/-- C6 (as stated, refuted): the key 'a', which matches no binding, typed in
the Idle state is appended to the input buffer: the buffer is "a" while the
state is still Idle.  A timeout handled in the Idle state followed by the
start key gives ended = true together with started = true. -/
theorem C6_counterexample :
    (run bubbles initialModel [Msg.KeyMsg "a" ['a']]).started = false ∧
    (run bubbles initialModel [Msg.KeyMsg "a" ['a']]).ended = false ∧
    (run bubbles initialModel [Msg.KeyMsg "a" ['a']]).textInput.Value = ['a'] ∧
    (run bubbles initialModel [Msg.KeyMsg "a" ['a']]).textInput.Value ≠ [] ∧
    (run bubbles initialModel [Msg.TimeoutMsg 1, Msg.KeyMsg "." ['.']]).ended = true ∧
    (run bubbles initialModel [Msg.TimeoutMsg 1, Msg.KeyMsg "." ['.']]).started = true := by
  decide

/-- C6 (amended): in every model reachable by any sequence of messages, a
timeout, an enabled start key and an enabled reset key each leave the input
buffer empty, and a key that matches no enabled binding is handed to the text
input whatever the state is (it is not ignored in Idle or Finished).  For the
sequences in which every timeout arrives while a test is running, ended = true
holds only with started = false. -/
theorem C6_buffer_and_result_lifecycle (L : Lib) (msgs : List Msg) (str : String)
    (Runes : List Char) (ID : Nat) :
    (Update L (run L initialModel msgs) (.TimeoutMsg ID)).textInput.Value = [] ∧
    (Matches str (run L initialModel msgs).keymap.quit = false →
      (Matches str (run L initialModel msgs).keymap.start = true ∨
        Matches str (run L initialModel msgs).keymap.reset = true) →
      (Update L (run L initialModel msgs) (.KeyMsg str Runes)).textInput.Value = []) ∧
    (Matches str (run L initialModel msgs).keymap.quit = false →
      Matches str (run L initialModel msgs).keymap.start = false →
      Matches str (run L initialModel msgs).keymap.reset = false →
      (Update L (run L initialModel msgs) (.KeyMsg str Runes)).textInput
        = L.textInputUpdate (run L initialModel msgs).textInput (.KeyMsg str Runes)) ∧
    (timeoutsWhileStarted L initialModel msgs = true →
      (run L initialModel msgs).ended = true → (run L initialModel msgs).started = false) := by
  refine ⟨rfl, ?_, ?_, ?_⟩
  · intro hq h
    unfold Update
    simp only [hq]
    rcases h with h | h
    · simp [h, TextInput.Reset, TextInput.Value]
    · by_cases hs : Matches str (run L initialModel msgs).keymap.start = true
      · simp [hs, TextInput.Reset, TextInput.Value]
      · simp [hs, h, TextInput.Reset, TextInput.Value]
  · intro hq hs hr
    unfold Update
    simp [hq, hs, hr, fallThrough]
  · intro ht
    exact (run_lifecycleInv L msgs initialModel initial_lifecycleInv ht).2.2

/-- C6 (amended), at the sequence start, 'h', timeout, and the key 'a': the
timeout arrives while running, 'a' matches no enabled binding in the Finished
state reached and is handed to the text input, and ended holds with
started = false. -/
theorem C6_buffer_and_result_lifecycle_witness :
    timeoutsWhileStarted bubbles initialModel
      [Msg.KeyMsg "." ['.'], Msg.KeyMsg "h" ['h'], Msg.TimeoutMsg 1] = true ∧
    (run bubbles initialModel
      [Msg.KeyMsg "." ['.'], Msg.KeyMsg "h" ['h'], Msg.TimeoutMsg 1]).ended = true ∧
    (run bubbles initialModel
      [Msg.KeyMsg "." ['.'], Msg.KeyMsg "h" ['h'], Msg.TimeoutMsg 1]).started = false ∧
    (Update bubbles (run bubbles initialModel
      [Msg.KeyMsg "." ['.'], Msg.KeyMsg "h" ['h'], Msg.TimeoutMsg 1])
        (.KeyMsg "a" ['a'])).textInput
      = bubbles.textInputUpdate (run bubbles initialModel
          [Msg.KeyMsg "." ['.'], Msg.KeyMsg "h" ['h'], Msg.TimeoutMsg 1]).textInput
          (.KeyMsg "a" ['a']) :=
  ⟨by decide, by decide,
    (C6_buffer_and_result_lifecycle bubbles
      [Msg.KeyMsg "." ['.'], Msg.KeyMsg "h" ['h'], Msg.TimeoutMsg 1] "a" ['a'] 1).2.2.2
        (by decide) (by decide),
    (C6_buffer_and_result_lifecycle bubbles
      [Msg.KeyMsg "." ['.'], Msg.KeyMsg "h" ['h'], Msg.TimeoutMsg 1] "a" ['a'] 1).2.2.1
        (by decide) (by decide) (by decide)⟩

/-- C7: in every model reachable from the initial model in which the reset
binding is enabled, the reset key 'tab' yields a model with an empty input
buffer, ended = false, started = false, the start binding enabled, the reset
binding disabled and a new timer of the full 5 seconds. -/
theorem C7_reset_clears_everything (L : Lib) (msgs : List Msg) (Runes : List Char)
    (h : (run L initialModel msgs).keymap.reset.Enabled = true) :
    (Update L (run L initialModel msgs) (.KeyMsg "tab" Runes)).textInput.Value = [] ∧
    (Update L (run L initialModel msgs) (.KeyMsg "tab" Runes)).ended = false ∧
    (Update L (run L initialModel msgs) (.KeyMsg "tab" Runes)).started = false ∧
    (Update L (run L initialModel msgs) (.KeyMsg "tab" Runes)).keymap.start.Enabled = true ∧
    (Update L (run L initialModel msgs) (.KeyMsg "tab" Runes)).keymap.reset.Enabled = false ∧
    (Update L (run L initialModel msgs) (.KeyMsg "tab" Runes)).timer
      = NewWithInterval timeout millisecond ∧
    (Update L (run L initialModel msgs) (.KeyMsg "tab" Runes)).timer.Timeout
      = 5 * 1000000000 := by
  obtain ⟨⟨k1, k2, k3, k4⟩, _, _, _⟩ := run_bindingsInv L msgs initialModel initial_lifecycleInv.1
  have hq : Matches "tab" (run L initialModel msgs).keymap.quit = false := by
    simp [Matches, k3]
  have hs : Matches "tab" (run L initialModel msgs).keymap.start = false := by
    simp [Matches, k1]
  have hr : Matches "tab" (run L initialModel msgs).keymap.reset = true := by
    simp [Matches, k2, h]
  unfold Update
  simp only [hq, hs, hr]
  simp [TextInput.Reset, TextInput.Value, Binding.SetEnabled, Binding.Enabled, k1, k2,
    NewWithInterval, timeout, timeInSeconds]

/-- C7, at the Running state reached by the start key with "hi" typed, and at
the Finished state after a timeout. -/
theorem C7_reset_clears_everything_witness :
    (run bubbles initialModel
      (Msg.KeyMsg "." ['.'] :: typeKeys "hi")).keymap.reset.Enabled = true ∧
    (run bubbles initialModel (Msg.KeyMsg "." ['.'] :: typeKeys "hi")).textInput.Value
      = "hi".toList ∧
    (Update bubbles (run bubbles initialModel (Msg.KeyMsg "." ['.'] :: typeKeys "hi"))
      (.KeyMsg "tab" [])).textInput.Value = [] ∧
    (Update bubbles (run bubbles initialModel (Msg.KeyMsg "." ['.'] :: typeKeys "hi"))
      (.KeyMsg "tab" [])).started = false :=
  ⟨by decide, by decide,
    (C7_reset_clears_everything bubbles (Msg.KeyMsg "." ['.'] :: typeKeys "hi") []
      (by decide)).1,
    (C7_reset_clears_everything bubbles (Msg.KeyMsg "." ['.'] :: typeKeys "hi") []
      (by decide)).2.2.1⟩

/-- C9: a `tea.WindowSizeMsg` with Width = 0 and Height = 0 returns the model
unchanged; any other one stores the new width and height; in both cases
started, ended, wpm, accuracy, the text input, the timer, the key bindings and
the cursor are left as they were. -/
theorem C9_resize_frame (L : Lib) (m : model) (Width Height : Int) :
    Update L m (.WindowSizeMsg 0 0) = m ∧
    (¬(Width = 0 ∧ Height = 0) →
      Update L m (.WindowSizeMsg Width Height) = { m with width := Width, height := Height }) ∧
    (Update L m (.WindowSizeMsg Width Height)).started = m.started ∧
    (Update L m (.WindowSizeMsg Width Height)).ended = m.ended ∧
    (Update L m (.WindowSizeMsg Width Height)).wpm = m.wpm ∧
    (Update L m (.WindowSizeMsg Width Height)).accuracy = m.accuracy ∧
    (Update L m (.WindowSizeMsg Width Height)).textInput = m.textInput ∧
    (Update L m (.WindowSizeMsg Width Height)).timer = m.timer ∧
    (Update L m (.WindowSizeMsg Width Height)).keymap = m.keymap ∧
    (Update L m (.WindowSizeMsg Width Height)).cursor = m.cursor := by
  refine ⟨by simp [Update], ?_, ?_⟩
  · intro h
    simp [Update, h]
  · unfold Update
    simp only
    split_ifs <;> simp

/-- C9, at a model of size 80 x 24: the message 0 x 0 keeps the size, the
message 100 x 0 stores width 100 and height 0. -/
theorem C9_resize_frame_witness :
    (Update bubbles { initialModel with width := 80, height := 24 }
      (.WindowSizeMsg 0 0)).width = 80 ∧
    ¬((100 : Int) = 0 ∧ (0 : Int) = 0) ∧
    Update bubbles { initialModel with width := 80, height := 24 } (.WindowSizeMsg 100 0)
      = { initialModel with width := 100, height := 0 } :=
  ⟨by rw [(C9_resize_frame bubbles { initialModel with width := 80, height := 24 } 100 0).1],
   by decide,
   (C9_resize_frame bubbles { initialModel with width := 80, height := 24 } 100 0).2.1
     (by decide)⟩

/-- C10 (the code at the failing input): a test is started and the 32
characters of the reference phrase are typed; the model is Running, the buffer
has 32 bytes, and the lookup `words[len(input)]` in `View` is out of range. -/
theorem C10_view_index_out_of_range :
    (run bubbles initialModel
      (Msg.KeyMsg "." ['.'] :: typeKeys "hi only few people can read this")).started = true ∧
    (bytes (run bubbles initialModel
      (Msg.KeyMsg "." ['.'] :: typeKeys "hi only few people can read this")).textInput.Value).length
      = 32 ∧
    (bytes words).length = 32 ∧
    View (run bubbles initialModel
      (Msg.KeyMsg "." ['.'] :: typeKeys "hi only few people can read this")) = .panic := by
  set_option maxRecDepth 100000 in decide

end TT
